import Mathlib

/-!
Formal model of the core of the `stock_api_v2` trading backtest service.

The Python source is shallowly embedded: prices and indicator values are
exact rationals (`Rat`), pandas series become Lean lists, `NaN` entries
become `Option.none`, and fallible calls return `Except String`.  Display
rounding of output records (Python `round(x, 2)` on trade dictionaries) is
a float-formatting concern and is not modelled; all recorded quantities
are the exact values the source computes with.

Embedded components:
* `app/services/technical_analysis.py`: `calculate_macd` (pandas
  `ewm(span=...).mean()` with its default `adjust=True` weighting) and
  `calculate_kdj` (rolling min/max with `min_periods=1`, Webull 2/3-1/3
  smoothing seeded at K = D = 50).
* `app/services/signal_detector.py`: `_check_buy_signal`,
  `_check_sell_signal`, `generate_signals`, `get_current_signal`.
* `app/services/trading_simulator.py`: `_execute_trades` (the deferred
  next-bar-open fill state machine) and `simulate` (the 50-bar floor).
* `app/services/market_scanner.py`: `_apply_exclude_rules`,
  `_evaluate_condition`, `_apply_sorting` (Python `x or y` truthiness in
  the field lookup is modelled exactly).
-/

set_option linter.unusedVariables false
set_option linter.unnecessarySeqFocus false
set_option maxRecDepth 8000

/- Batteries marks the `Rat` field operations `@[irreducible]`; restore
reducibility locally so that concrete runs of the embedded functions can be
checked by `decide`. -/
attribute [local semireducible] Rat.mul Rat.add Rat.inv Rat.sub

deriving instance DecidableEq for Except

namespace StockV2

/-- One OHLCV bar.  `date` abstracts the pandas timestamp index as a day
number (the source only compares and subtracts dates); `opn` is the
`Open` column (`open` is a Lean keyword). -/
structure Bar where
  date : Int
  opn : Rat
  high : Rat
  low : Rat
  close : Rat
  volume : Rat
deriving DecidableEq

instance : Inhabited Bar := ⟨⟨0, 0, 0, 0, 0, 0⟩⟩

/-! ## Technical analysis (`technical_analysis.py`) -/

/-- Smoothing factor of a pandas span: alpha = 2 / (span + 1). -/
def alphaOfSpan (span : Nat) : Rat := 2 / ((span : Rat) + 1)

/-- Core of pandas `Series.ewm(span=...).mean()` with the default
`adjust=True`: each output is a weighted average `S / W` where
`S_t = x_t + w * S_(t-1)` and `W_t = 1 + w * W_(t-1)` with `w = 1 - alpha`.
`s` and `wt` are the running numerator and weight. -/
def ewmAux (w : Rat) : Rat → Rat → List Rat → List Rat
  | _, _, [] => []
  | s, wt, x :: xs =>
    let s1 := x + w * s
    let wt1 := 1 + w * wt
    s1 / wt1 :: ewmAux w s1 wt1 xs

/-- pandas `xs.ewm(span=span).mean()` (default `adjust=True`). -/
def ewm (span : Nat) (xs : List Rat) : List Rat :=
  ewmAux (1 - alphaOfSpan span) 0 0 xs

/-- Result record of `calculate_macd` (the three index-aligned series). -/
structure MacdResult where
  macd_line : List Rat
  signal_line : List Rat
  histogram : List Rat
deriving DecidableEq

/-- `TechnicalAnalysis.calculate_macd` on the `Close` column. -/
def calculate_macd (closes : List Rat)
    (fast_period slow_period signal_period : Nat) : Except String MacdResult :=
  if closes.isEmpty || closes.length < slow_period then
    .error "Insufficient data for MACD calculation"
  else
    let ema_fast := ewm fast_period closes
    let ema_slow := ewm slow_period closes
    let macd_line := ema_fast.zipWith (fun a b => a - b) ema_slow
    let signal_line := ewm signal_period macd_line
    let histogram := macd_line.zipWith (fun a b => a - b) signal_line
    .ok ⟨macd_line, signal_line, histogram⟩

/-- Minimum of a list, as used for a (nonempty) rolling window. -/
def listMin : List Rat → Rat
  | [] => 0
  | x :: xs => xs.foldl (fun a b => min a b) x

/-- Maximum of a list, as used for a (nonempty) rolling window. -/
def listMax : List Rat → Rat
  | [] => 0
  | x :: xs => xs.foldl (fun a b => max a b) x

/-- The trailing window of positions `max (i + 1 - k) 0 .. i` of `xs`:
pandas `rolling(window=k, min_periods=1)` at row `i`. -/
def winSlice (k i : Nat) (xs : List Rat) : List Rat :=
  (xs.take (i + 1)).drop (i + 1 - k)

/-- pandas `xs.rolling(window=k, min_periods=1).min()`. -/
def rollingMin (k : Nat) (xs : List Rat) : List Rat :=
  (List.range xs.length).map fun i => listMin (winSlice k i xs)

/-- pandas `xs.rolling(window=k, min_periods=1).max()`. -/
def rollingMax (k : Nat) (xs : List Rat) : List Rat :=
  (List.range xs.length).map fun i => listMax (winSlice k i xs)

/-- Result record of `calculate_kdj` (the three index-aligned series). -/
structure KdjResult where
  k : List Rat
  d : List Rat
  j : List Rat
deriving DecidableEq

/-- The K/D smoothing loop of `calculate_kdj`, pairing each RSV value after
the seed with `(K_t, D_t)` where `K_t = 2/3 K_(t-1) + 1/3 RSV_t` and
`D_t = 2/3 D_(t-1) + 1/3 K_t`. -/
def kdjRec : List Rat → Rat → Rat → List (Rat × Rat)
  | [], _, _ => []
  | r :: rs, kp, dp =>
    let kc := 2/3 * kp + 1/3 * r
    let dc := 2/3 * dp + 1/3 * kc
    (kc, dc) :: kdjRec rs kc dc

/-- Row `i` of the RSV series of `calculate_kdj`:
`(close - low_min) / denominator * 100` with the rolling extrema and the
zero-denominator replacement of the source. -/
def rsvAt (bars : List Bar) (k_period i : Nat) : Rat :=
  let lo := (rollingMin k_period (bars.map (·.low))).getD i 0
  let hi := (rollingMax k_period (bars.map (·.high))).getD i 0
  let den := if hi - lo = 0 then 1 else hi - lo
  ((bars.map (·.close)).getD i 0 - lo) / den * 100

/-- `TechnicalAnalysis.calculate_kdj`.  With NaN-free input every RSV entry
is defined, so `rsv.first_valid_index()` is row 0: K and D are seeded to 50
there and smoothed afterwards.  `d_period` and `j_period` are accepted and
ignored exactly as in the source. -/
def calculate_kdj (bars : List Bar) (k_period d_period j_period : Nat) :
    Except String KdjResult :=
  if bars.isEmpty || bars.length < k_period then
    .error "Insufficient data for KDJ calculation"
  else
    let rsv := (List.range bars.length).map (rsvAt bars k_period)
    match rsv with
    | [] => .ok ⟨[], [], []⟩
    | _ :: rtail =>
      let pairs := kdjRec rtail 50 50
      let k_values := 50 :: pairs.map (·.1)
      let d_values := 50 :: pairs.map (·.2)
      let j_values := k_values.zipWith (fun a b => 3 * a - 2 * b) d_values
      .ok ⟨k_values, d_values, j_values⟩

/-! ## Signal detector (`signal_detector.py`)

Indicator series are `List (Option Rat)`: `none` is a NaN entry (in
particular the all-NaN series substituted when an indicator errored). -/

/-- `SignalDetector._check_buy_signal`.  Series access is by position, as
`iloc` in the source; thresholds default to 20 for KDJ. -/
def check_buy_signal (index : Nat) (indicator : String)
    (macd_histogram kdj_k kdj_d : List (Option Rat))
    (threshold : Option Rat) : Bool :=
  if indicator = "macd" then
    if index < 1 then false
    else
      match macd_histogram.getD (index - 1) none, macd_histogram.getD index none with
      | some yesterday, some today => decide (yesterday < 0) && decide (0 < today)
      | _, _ => false
  else if indicator = "kdj" then
    match kdj_k.getD index none, kdj_d.getD index none with
    | some k_val, some d_val =>
      let thresh := threshold.getD 20
      decide (k_val < thresh) && decide (d_val < thresh)
    | _, _ => false
  else false

/-- `SignalDetector._check_sell_signal`.  MACD sell is the three-point peak
detection; thresholds default to 80 for KDJ. -/
def check_sell_signal (index : Nat) (indicator : String)
    (macd_histogram kdj_k kdj_d : List (Option Rat))
    (threshold : Option Rat) : Bool :=
  if indicator = "macd" then
    if index < 2 then false
    else
      match macd_histogram.getD (index - 2) none, macd_histogram.getD (index - 1) none,
            macd_histogram.getD index none with
      | some day_before_yesterday, some yesterday, some today =>
        decide (day_before_yesterday < yesterday) && decide (today < yesterday) &&
          decide (0 < yesterday)
      | _, _, _ => false
  else if indicator = "kdj" then
    match kdj_k.getD index none, kdj_d.getD index none with
    | some k_val, some d_val =>
      let thresh := threshold.getD 80
      decide (thresh < k_val) && decide (thresh < d_val)
    | _, _ => false
  else false

/-- `TechnicalAnalysis.get_macd_histogram_series` followed by the
`generate_signals` NaN substitution: the histogram with default periods,
or an all-NaN series when MACD errored. -/
def histSeries (bars : List Bar) : List (Option Rat) :=
  match calculate_macd (bars.map (·.close)) 12 26 9 with
  | .error _ => List.replicate bars.length none
  | .ok r => r.histogram.map some

/-- `TechnicalAnalysis.get_kdj_series` followed by the `generate_signals`
NaN substitution: the K and D series with default periods, or all-NaN
series when KDJ errored. -/
def kdjSeriesKD (bars : List Bar) : List (Option Rat) × List (Option Rat) :=
  match calculate_kdj bars 9 3 3 with
  | .error _ => (List.replicate bars.length none, List.replicate bars.length none)
  | .ok r => (r.k.map some, r.d.map some)

/-- `SignalDetector.generate_signals`: two parallel 0/1 lists, one entry
per bar. -/
def generate_signals (bars : List Bar) (buy_indicator sell_indicator : String)
    (buy_threshold sell_threshold : Option Rat) : List Nat × List Nat :=
  let macd_histogram := histSeries bars
  let kd := kdjSeriesKD bars
  ((List.range bars.length).map fun i =>
      if check_buy_signal i buy_indicator macd_histogram kd.1 kd.2 buy_threshold
      then 1 else 0,
   (List.range bars.length).map fun i =>
      if check_sell_signal i sell_indicator macd_histogram kd.1 kd.2 sell_threshold
      then 1 else 0)

/-- The resolved signal of a current-signal query. -/
inductive SignalType | BUY | SELL | HOLD
deriving DecidableEq

/-- Which reasoning string `get_current_signal` builds (the string kinds,
abstracted from their formatted numeric content). -/
inductive Reason
  | insufficientData
  | errorCalculating
  | conflicting
  | buySignal
  | sellSignal
  | noSignal
deriving DecidableEq

/-- `SignalDetector.get_current_signal`: evaluates the checks at the last
index only and resolves buy/sell conflicts to HOLD. -/
def get_current_signal (bars : List Bar) (buy_indicator sell_indicator : String)
    (buy_threshold sell_threshold : Option Rat) : SignalType × Reason :=
  if bars.length < 3 then (.HOLD, .insufficientData)
  else
    match calculate_macd (bars.map (·.close)) 12 26 9, calculate_kdj bars 9 3 3 with
    | .ok mr, .ok kr =>
      let macd_histogram := mr.histogram.map some
      let kdj_k := kr.k.map some
      let kdj_d := kr.d.map some
      let last_idx := bars.length - 1
      let is_buy := check_buy_signal last_idx buy_indicator macd_histogram kdj_k kdj_d buy_threshold
      let is_sell := check_sell_signal last_idx sell_indicator macd_histogram kdj_k kdj_d sell_threshold
      if is_buy && is_sell then (.HOLD, .conflicting)
      else if is_buy then (.BUY, .buySignal)
      else if is_sell then (.SELL, .sellSignal)
      else (.HOLD, .noSignal)
    | _, _ => (.HOLD, .errorCalculating)

/-! ## Trading simulator (`trading_simulator.py`) -/

/-- `settings.initial_balance`. -/
def initial_balance : Rat := 10000

/-- `settings.commission_rate` (0.1 percent per trade). -/
def commission_rate : Rat := 1 / 1000

/-- Side of a recorded trade dictionary. -/
inductive TradeType | BUY | SELL
deriving DecidableEq

/-- One entry of the trade log built by `_execute_trades`.  `signalIdx` is
the bar position whose date the source records as `signal_date`
(`none` encodes the literal `"End of period"` of the forced final close);
`execIdx` is the bar position of `execution_date`.  Fields that the source
only writes for SELL rows are `Option`s. -/
structure Trade where
  ttype : TradeType
  signalIdx : Option Nat
  execIdx : Nat
  signalPrice : Rat
  execPrice : Rat
  shares : Rat
  commission : Rat
  proceeds : Option Rat
  netProceeds : Option Rat
  profitLoss : Option Rat
  profitLossPct : Option Rat
  balanceAfter : Rat
  holdDays : Option Int
deriving DecidableEq

instance : Inhabited Trade :=
  ⟨⟨.BUY, none, 0, 0, 0, 0, 0, none, none, none, none, 0, none⟩⟩

/-- The mutable locals of the `_execute_trades` loop. -/
structure SimState where
  balance : Rat
  shares : Rat
  position_open : Bool
  buy_price : Rat
  buyIdx : Nat
  pending_buy : Bool
  pending_sell : Bool
  signalIdx : Nat
  trades : List Trade
deriving DecidableEq

/-- The state of `_execute_trades` before its loop. -/
def initState : SimState :=
  { balance := initial_balance, shares := 0, position_open := false,
    buy_price := 0, buyIdx := 0, pending_buy := false, pending_sell := false,
    signalIdx := 0, trades := [] }

/-- One iteration of the `_execute_trades` loop at bar `i`.  The two signal
branches `continue` past the fill branches, the buy fill is checked before
the sell fill (`if`/`elif`), and a fill prices at bar `i`'s open. -/
def step (bars : List Bar) (buy_signals sell_signals : List Nat)
    (s : SimState) (i : Nat) : SimState :=
  if buy_signals.getD i 0 = 1 && !s.position_open && !s.pending_buy then
    { s with pending_buy := true, signalIdx := i }
  else if sell_signals.getD i 0 = 1 && s.position_open && !s.pending_sell then
    { s with pending_sell := true, signalIdx := i }
  else if s.pending_buy && decide (0 < i) then
    let execution_price := (bars.getD i default).opn
    let commission := s.balance * commission_rate
    let shares := (s.balance - commission) / execution_price
    { s with shares := shares, buy_price := execution_price, buyIdx := i,
             position_open := true, pending_buy := false,
             trades := s.trades ++
               [{ ttype := .BUY, signalIdx := some s.signalIdx, execIdx := i,
                  signalPrice := (bars.getD (i - 1) default).close,
                  execPrice := execution_price, shares := shares,
                  commission := commission, proceeds := none, netProceeds := none,
                  profitLoss := none, profitLossPct := none,
                  balanceAfter := s.balance - commission, holdDays := none }] }
  else if s.pending_sell && decide (0 < i) then
    let execution_price := (bars.getD i default).opn
    let sell_value := s.shares * execution_price
    let commission := sell_value * commission_rate
    let net_proceeds := sell_value - commission
    let cost_basis := s.shares * s.buy_price + (s.trades.getLastD default).commission
    let profit_loss := net_proceeds - cost_basis
    let profit_loss_pct := if 0 < cost_basis then profit_loss / cost_basis * 100 else 0
    let hold_days := (bars.getD i default).date - (bars.getD s.buyIdx default).date
    { s with balance := net_proceeds, shares := 0, position_open := false,
             pending_sell := false,
             trades := s.trades ++
               [{ ttype := .SELL, signalIdx := some s.signalIdx, execIdx := i,
                  signalPrice := (bars.getD (i - 1) default).close,
                  execPrice := execution_price, shares := s.shares,
                  commission := commission, proceeds := some sell_value,
                  netProceeds := some net_proceeds, profitLoss := some profit_loss,
                  profitLossPct := some profit_loss_pct,
                  balanceAfter := net_proceeds,
                  holdDays := some hold_days }] }
  else s

/-- The `_execute_trades` loop run over the first `m` bars. -/
def runSteps (bars : List Bar) (buy_signals sell_signals : List Nat) (m : Nat) :
    SimState :=
  (List.range m).foldl (step bars buy_signals sell_signals) initState

/-- `TradingSimulator._execute_trades`: run the loop over every bar, then
force-close any remaining position at the final bar's close price. -/
def execute_trades (bars : List Bar) (buy_signals sell_signals : List Nat) :
    List Trade × Rat :=
  let s := runSteps bars buy_signals sell_signals bars.length
  if s.position_open then
    let current_idx := bars.length - 1
    let current_price := (bars.getD current_idx default).close
    let sell_value := s.shares * current_price
    let commission := sell_value * commission_rate
    let net_proceeds := sell_value - commission
    let cost_basis := s.shares * s.buy_price + (s.trades.getLastD default).commission
    let profit_loss := net_proceeds - cost_basis
    let profit_loss_pct := if 0 < cost_basis then profit_loss / cost_basis * 100 else 0
    let hold_days := (bars.getD current_idx default).date - (bars.getD s.buyIdx default).date
    (s.trades ++
      [{ ttype := .SELL, signalIdx := none, execIdx := current_idx,
         signalPrice := current_price, execPrice := current_price,
         shares := s.shares, commission := commission,
         proceeds := some sell_value, netProceeds := some net_proceeds,
         profitLoss := some profit_loss, profitLossPct := some profit_loss_pct,
         balanceAfter := net_proceeds, holdDays := some hold_days }],
     net_proceeds)
  else (s.trades, s.balance)

/-- Error message of the simulator's input-size gate. -/
def simulateInsufficientMsg : String :=
  "Insufficient data for trading simulation (need >= 50 data points)"

/-- `TradingSimulator.simulate`: reject sub-50-bar input, generate the
signals, execute the trades.  (The summary and statistics records it also
assembles are aggregations of the returned log and balance.) -/
def simulate (bars : List Bar) (buy_indicator sell_indicator : String)
    (buy_threshold sell_threshold : Option Rat) :
    Except String (List Trade × Rat) :=
  if bars.isEmpty || bars.length < 50 then .error simulateInsufficientMsg
  else
    let sigs := generate_signals bars buy_indicator sell_indicator
      buy_threshold sell_threshold
    .ok (execute_trades bars sigs.1 sigs.2)

/-- Whether an `Except` result is an error. -/
def isErr {α : Type} : Except String α → Bool
  | .error _ => true
  | .ok _ => false

/-! ## Market scanner result filtering and sorting (`market_scanner.py`)

`_apply_exclude_rules` and `_apply_sorting` consume arbitrary per-symbol
result dictionaries; only their `trading_summary` and `statistics`
sub-dictionaries are read, each a string-keyed record of numbers.  They
are modelled as association lists of rationals. -/

/-- A per-symbol scan result as seen by the filter and sort steps. -/
structure ScanResult where
  trading_summary : List (String × Rat)
  statistics : List (String × Rat)
deriving DecidableEq

/-- Python `d.get(field)`: first binding of the key, if any. -/
def dictGet : List (String × Rat) → String → Option Rat
  | [], _ => none
  | (k, v) :: rest, f => if k = f then some v else dictGet rest f

/-- Python truthiness of `d.get(field)`: `None` and `0` are falsy. -/
def pyTruthy : Option Rat → Bool
  | none => false
  | some v => decide (v ≠ 0)

/-- Python `a or b` on optional numbers: `a` when truthy, else `b`. -/
def pyOr (a b : Option Rat) : Option Rat := if pyTruthy a then a else b

/-- An exclude rule `{field, operator, value}`. -/
structure ExcludeRule where
  field : String
  op : String
  value : Rat
deriving DecidableEq

/-- `MarketScanner._evaluate_condition`: the operator table; an unknown
operator excludes nothing. -/
def evaluate_condition (field_value : Rat) (op : String) (value : Rat) : Bool :=
  if op = "<" then decide (field_value < value)
  else if op = ">" then decide (value < field_value)
  else if op = "<=" then decide (field_value ≤ value)
  else if op = ">=" then decide (value ≤ field_value)
  else if op = "==" then decide (field_value = value)
  else if op = "!=" then decide (field_value ≠ value)
  else false

/-- One rule of the `_apply_exclude_rules` inner loop:
`field_value = summary.get(field) or stats.get(field)`, skip when that is
`None`, else apply the operator. -/
def ruleMatches (result : ScanResult) (rule : ExcludeRule) : Bool :=
  match pyOr (dictGet result.trading_summary rule.field)
      (dictGet result.statistics rule.field) with
  | none => false
  | some v => evaluate_condition v rule.op rule.value

/-- `MarketScanner._apply_exclude_rules`: keep the results no rule
excludes, in order. -/
def apply_exclude_rules : List ScanResult → List ExcludeRule → List ScanResult
  | [], _ => []
  | r :: rs, rules =>
    if rules.any (ruleMatches r) then apply_exclude_rules rs rules
    else r :: apply_exclude_rules rs rules

/-- A sort rule `{field, order}` with `order` already lower-cased. -/
structure SortRule where
  field : String
  order : String
deriving DecidableEq

/-- The sort-key value of one field:
`summary.get(field) or stats.get(field) or 0` — the first truthy
(non-zero) value, else 0. -/
def sortFieldValue (item : ScanResult) (field : String) : Rat :=
  (pyOr (pyOr (dictGet item.trading_summary field) (dictGet item.statistics field))
    (some 0)).getD 0

/-- One component of `get_sort_key`: the field value, negated for
descending order. -/
def sortValue (item : ScanResult) (rule : SortRule) : Rat :=
  let v := sortFieldValue item rule.field
  if rule.order = "desc" then -v else v

/-- The `get_sort_key` tuple of an item. -/
def sortKey (item : ScanResult) (rules : List SortRule) : List Rat :=
  rules.map (sortValue item)

/-- Python tuple comparison `a <= b`, lexicographic. -/
def keyLe : List Rat → List Rat → Bool
  | [], _ => true
  | _ :: _, [] => false
  | a :: as, b :: bs =>
    if a < b then true else if b < a then false else keyLe as bs

/-- Stable insertion of `a` into `l`: `a` goes before the first element it
compares `le` to (so before later-inserted equals, preserving input
order). -/
def insertSorted {α : Type} (le : α → α → Bool) (a : α) : List α → List α
  | [] => [a]
  | b :: l => if le a b then a :: b :: l else b :: insertSorted le a l

/-- A stable sort.  CPython's `sorted` is also stable, and any two stable
sorts by the same total preorder agree, so this models `sorted(key=...)`
exactly. -/
def pySorted {α : Type} (le : α → α → Bool) : List α → List α
  | [] => []
  | x :: xs => insertSorted le x (pySorted le xs)

/-- The default sort rule substituted when none are given. -/
def defaultSortRules : List SortRule := [⟨"return_percentage", "desc"⟩]

/-- `MarketScanner._apply_sorting`: default rules when none given, then a
stable sort by the lexicographic key tuples. -/
def apply_sorting (results : List ScanResult) (sort_rules : List SortRule) :
    List ScanResult :=
  if results.isEmpty then results
  else
    let rules := if sort_rules.isEmpty then defaultSortRules else sort_rules
    pySorted (fun a b => keyLe (sortKey a rules) (sortKey b rules)) results

/-! ## Specification-side definitions

These transcribe the spec's own formulas, to be compared against the
embedded code.  They are deliberately built by index recursion rather than
by the list scans above. -/

/-- The spec's EMA: the recurrence seeded by its own first input value,
`EMA_0 = x_0`, `EMA_t = (1 - alpha) * EMA_(t-1) + alpha * x_t`. -/
def emaRecurrence (a : Rat) (xs : List Rat) : Nat → Rat
  | 0 => xs.getD 0 0
  | t + 1 => (1 - a) * emaRecurrence a xs t + a * xs.getD (t + 1) 0

/-- Numerator of the adjusted (pandas `adjust=True`) EMA, seeded with
running value `s`: `N_0 = x_0 + w * s`, `N_(t+1) = x_(t+1) + w * N_t`. -/
def ewmNumFrom (w : Rat) (xs : List Rat) (s : Rat) : Nat → Rat
  | 0 => xs.getD 0 0 + w * s
  | t + 1 => xs.getD (t + 1) 0 + w * ewmNumFrom w xs s t

/-- Weight sum of the adjusted EMA, seeded with running weight `wt`:
`W_0 = 1 + w * wt`, `W_(t+1) = 1 + w * W_t`. -/
def ewmDenFrom (w : Rat) (wt : Rat) : Nat → Rat
  | 0 => 1 + w * wt
  | t + 1 => 1 + w * ewmDenFrom w wt t

/-- The adjusted EMA value at index `t`: the `(1-alpha)^i`-weighted average
of `x_0 .. x_t` (what pandas `ewm(span).mean()` computes), written as the
quotient of the two seeded recurrences started from zero. -/
def emaAdjusted (span : Nat) (xs : List Rat) (t : Nat) : Rat :=
  ewmNumFrom (1 - alphaOfSpan span) xs 0 t / ewmDenFrom (1 - alphaOfSpan span) 0 t

/-- The positions of the trailing window of size at most `k` ending at `i`:
`max (i + 1 - k) 0 .. i`. -/
def windowIdx (k i : Nat) : List Nat := (List.range (i + 1)).drop (i + 1 - k)

/-- The spec's trailing-window minimum of `xs` at row `i`. -/
def trailMin (k i : Nat) (xs : List Rat) : Rat :=
  listMin ((windowIdx k i).map fun j => xs.getD j 0)

/-- The spec's trailing-window maximum of `xs` at row `i`. -/
def trailMax (k i : Nat) (xs : List Rat) : Rat :=
  listMax ((windowIdx k i).map fun j => xs.getD j 0)

/-- The spec's RSV at row `i`:
`(close_i - min low) / (max high - min low) * 100` over the trailing
`k`-window, denominator replaced by 1 when zero. -/
def specRsv (bars : List Bar) (k i : Nat) : Rat :=
  let lo := trailMin k i (bars.map (·.low))
  let hi := trailMax k i (bars.map (·.high))
  let den := if hi - lo = 0 then 1 else hi - lo
  ((bars.map (·.close)).getD i 0 - lo) / den * 100

/-- Number of trades of the given type in a log. -/
def countType (ty : TradeType) (ts : List Trade) : Nat :=
  ts.countP fun t => decide (t.ttype = ty)

/-- C1's execution-price discipline for a single recorded trade: a trade
carrying a signal bar executed at the open of the bar strictly after it;
the end-of-period trade (no signal bar) is a SELL at the last bar's close
price. -/
def TradeExecOk (bars : List Bar) (t : Trade) : Prop :=
  (∀ j, t.signalIdx = some j →
    t.execIdx = j + 1 ∧ j + 1 < bars.length ∧
      t.execPrice = (bars.getD (j + 1) default).opn) ∧
  (t.signalIdx = none →
    t.ttype = .SELL ∧ t.execIdx = bars.length - 1 ∧
      t.execPrice = (bars.getD (bars.length - 1) default).close)

/-- Loop invariant of `_execute_trades` after processing bars `0 .. i-1`:
a pending buy was signalled on the previous bar while flat, a pending sell
on the previous bar while long; recorded trades obey the execution-price
discipline with their fill bar before `i`; and the BUY/SELL count balance
matches whether a position is open. -/
def SimInv (bars : List Bar) (i : Nat) (s : SimState) : Prop :=
  (s.pending_buy = true → s.signalIdx + 1 = i ∧ s.position_open = false) ∧
  (s.pending_sell = true → s.signalIdx + 1 = i ∧ s.position_open = true) ∧
  (∀ t ∈ s.trades, ∀ j, t.signalIdx = some j →
    t.execIdx = j + 1 ∧ j + 1 < i ∧ t.execPrice = (bars.getD (j + 1) default).opn) ∧
  (∀ t ∈ s.trades, t.signalIdx ≠ none) ∧
  countType .BUY s.trades = countType .SELL s.trades + (if s.position_open then 1 else 0) ∧
  (∀ k, countType .SELL (s.trades.take k) ≤ countType .BUY (s.trades.take k) ∧
    countType .BUY (s.trades.take k) ≤ countType .SELL (s.trades.take k) + 1)

/-- The claim's (spec's) field lookup for exclude and sort rules: the
summary value when the field is present there, else the statistics value;
`none` when absent from both. -/
def specFieldGet (r : ScanResult) (f : String) : Option Rat :=
  match dictGet r.trading_summary f with
  | some v => some v
  | none => dictGet r.statistics f

/-- The claim's (spec's) sort value of a field: the `specFieldGet` lookup
with a missing value defaulting to 0. -/
def specSortValue (r : ScanResult) (f : String) : Rat :=
  (specFieldGet r f).getD 0

/-- The spec-level reading of one exclude rule: its field resolves to a
value (under the code's truthiness lookup) and the comparison holds. -/
def RuleApplies (r : ScanResult) (rule : ExcludeRule) : Prop :=
  ∃ v, pyOr (dictGet r.trading_summary rule.field) (dictGet r.statistics rule.field) = some v ∧
    ((rule.op = "<" ∧ v < rule.value) ∨
     (rule.op = ">" ∧ rule.value < v) ∨
     (rule.op = "<=" ∧ v ≤ rule.value) ∨
     (rule.op = ">=" ∧ rule.value ≤ v) ∨
     (rule.op = "==" ∧ v = rule.value) ∨
     (rule.op = "!=" ∧ v ≠ rule.value))

/-! ## Theorems -/

/-- A successful `calculate_macd` returns exactly the three zipped EMA
series. -/
theorem calculate_macd_ok (closes : List Rat) (f s g : Nat)
    (h0 : closes ≠ []) (hs : s ≤ closes.length) :
    ∃ r, calculate_macd closes f s g = .ok r ∧
      r.macd_line = (ewm f closes).zipWith (fun a b => a - b) (ewm s closes) ∧
      r.signal_line = ewm g r.macd_line ∧
      r.histogram = r.macd_line.zipWith (fun a b => a - b) r.signal_line := by
  have hc : (closes.isEmpty || decide (closes.length < s)) = false := by
    simp [h0]
    omega
  rw [calculate_macd, if_neg (by simp [hc])]
  exact ⟨_, rfl, rfl, rfl, rfl⟩

/-- `calculate_kdj` succeeds on any nonempty input of at least `k` bars. -/
theorem calculate_kdj_ok (bars : List Bar) (k d j : Nat)
    (h0 : bars ≠ []) (hs : k ≤ bars.length) :
    ∃ r, calculate_kdj bars k d j = .ok r := by
  have hc : (bars.isEmpty || decide (bars.length < k)) = false := by
    simp [h0]
    omega
  obtain ⟨m, hm⟩ : ∃ m, bars.length = m + 1 := by
    cases bars with
    | nil => exact absurd rfl h0
    | cons a l => exact ⟨l.length, rfl⟩
  rw [calculate_kdj, if_neg (by simp [hc]), hm, List.range_succ_eq_map]
  exact ⟨_, rfl⟩

/-- C5: the MACD sell signal fires at index `i` iff `i ≥ 2`, the three
histogram entries at `i-2`, `i-1`, `i` are all defined, the histogram was
rising into `i-1`, falls into `i`, and is positive at `i-1`; for `i < 2`
or any undefined input it never fires. -/
theorem C5_macd_sell_peak_iff (macd_histogram kdj_k kdj_d : List (Option Rat))
    (threshold : Option Rat) (i : Nat) (hi : i < macd_histogram.length) :
    check_sell_signal i "macd" macd_histogram kdj_k kdj_d threshold = true ↔
      2 ≤ i ∧ ∃ a b c,
        macd_histogram.getD (i - 2) none = some a ∧
        macd_histogram.getD (i - 1) none = some b ∧
        macd_histogram.getD i none = some c ∧
        a < b ∧ c < b ∧ 0 < b := by
  rw [check_sell_signal, if_pos rfl]
  by_cases h2 : i < 2
  · rw [if_pos h2]
    constructor
    · intro h
      exact absurd h (by decide)
    · rintro ⟨h, -⟩
      exact absurd h2 (by omega)
  · rw [if_neg h2]
    have h2x : 2 ≤ i := by omega
    rcases hx : macd_histogram.getD (i - 2) none with _ | a <;>
      rcases hy : macd_histogram.getD (i - 1) none with _ | b <;>
        rcases hz : macd_histogram.getD i none with _ | c <;>
          simp_all <;> tauto

theorem C5_witness :
    2 < ([some 1, some 2, some 1] : List (Option Rat)).length ∧
      check_sell_signal 2 "macd" [some 1, some 2, some 1] [] [] none = true :=
  ⟨by decide,
    (C5_macd_sell_peak_iff [some 1, some 2, some 1] [] [] none 2 (by decide)).mpr
      ⟨by decide, 1, 2, 1, by decide, by decide, by decide, by decide, by decide, by decide⟩⟩

/-- C9: `simulate` fails with the insufficient-data error exactly when the
input has fewer than 50 bars, and any input of at least 50 bars is
simulated without error. -/
theorem C9_fifty_bar_floor (bars : List Bar) (bi si : String) (bt st : Option Rat) :
    (simulate bars bi si bt st = .error simulateInsufficientMsg ↔ bars.length < 50) ∧
    (50 ≤ bars.length → isErr (simulate bars bi si bt st) = false) := by
  unfold simulate
  rcases Nat.lt_or_ge bars.length 50 with h | h
  · have hc : (bars.isEmpty || decide (bars.length < 50)) = true := by simp [h]
    rw [if_pos hc]
    refine ⟨⟨fun _ => h, fun _ => rfl⟩, fun hge => absurd h (by omega)⟩
  · have hc : (bars.isEmpty || decide (bars.length < 50)) = false := by
      have : bars ≠ [] := by
        intro he
        rw [he] at h
        simp at h
      simp [this]
      omega
    rw [if_neg (by simp [hc])]
    refine ⟨⟨fun he => absurd he (by simp), fun hlt => absurd hlt (by omega)⟩, fun _ => rfl⟩

theorem C9_witness :
    (simulate (List.replicate 49 default) "macd" "macd" none none =
      .error simulateInsufficientMsg) ∧
    (50 ≤ (List.replicate 50 (default : Bar)).length ∧
      isErr (simulate (List.replicate 50 default) "macd" "macd" none none) = false) :=
  ⟨(C9_fifty_bar_floor (List.replicate 49 default) "macd" "macd" none none).1.mpr (by decide),
   by decide,
   (C9_fifty_bar_floor (List.replicate 50 default) "macd" "macd" none none).2 (by decide)⟩

/-- C6: `get_current_signal` resolves deterministically on the last bar:
fewer than 3 bars gives HOLD with the insufficient-data explanation; an
indicator-calculation failure (3 to 25 bars, where default-period MACD
errors) gives HOLD with the error explanation; otherwise both signals true
gives HOLD with the conflicting-signals explanation, buy only gives BUY,
sell only gives SELL, neither gives HOLD. -/
theorem C6_current_signal_resolution (bars : List Bar) (bi si : String)
    (bt st : Option Rat) :
    (bars.length < 3 →
      get_current_signal bars bi si bt st = (.HOLD, .insufficientData)) ∧
    (3 ≤ bars.length → bars.length < 26 →
      get_current_signal bars bi si bt st = (.HOLD, .errorCalculating)) ∧
    (26 ≤ bars.length →
      get_current_signal bars bi si bt st =
        if check_buy_signal (bars.length - 1) bi (histSeries bars)
              (kdjSeriesKD bars).1 (kdjSeriesKD bars).2 bt &&
            check_sell_signal (bars.length - 1) si (histSeries bars)
              (kdjSeriesKD bars).1 (kdjSeriesKD bars).2 st then
          (.HOLD, .conflicting)
        else if check_buy_signal (bars.length - 1) bi (histSeries bars)
            (kdjSeriesKD bars).1 (kdjSeriesKD bars).2 bt then
          (.BUY, .buySignal)
        else if check_sell_signal (bars.length - 1) si (histSeries bars)
            (kdjSeriesKD bars).1 (kdjSeriesKD bars).2 st then
          (.SELL, .sellSignal)
        else (.HOLD, .noSignal)) := by
  refine ⟨fun h3 => ?_, fun h3 h26 => ?_, fun h26 => ?_⟩
  · rw [get_current_signal, if_pos h3]
  · have h0 : bars ≠ [] := by
      intro he
      rw [he] at h3
      simp at h3
    rw [get_current_signal, if_neg (by omega)]
    have hcond : ((bars.map (·.close)).isEmpty ||
        decide ((bars.map (·.close)).length < 26)) = true := by
      simp
      omega
    have hmacd : (calculate_macd (bars.map (·.close)) 12 26 9) =
        .error "Insufficient data for MACD calculation" := by
      rw [calculate_macd, if_pos hcond]
    rw [hmacd]
  · have h0 : bars ≠ [] := by
      intro he
      rw [he] at h26
      simp at h26
    obtain ⟨mr, hmr, hml, hsl, hh⟩ :=
      calculate_macd_ok (bars.map (·.close)) 12 26 9 (by simpa using h0) (by simp; omega)
    obtain ⟨kr, hkr⟩ := calculate_kdj_ok bars 9 3 3 h0 (by omega)
    rw [get_current_signal, if_neg (by omega), hmr, hkr]
    have hhist : histSeries bars = mr.histogram.map some := by
      rw [histSeries, hmr]
    have hkd : kdjSeriesKD bars = (kr.k.map some, kr.d.map some) := by
      rw [kdjSeriesKD, hkr]
    rw [hhist, hkd]

theorem C6_witness :
    get_current_signal [] "macd" "kdj" none none = (.HOLD, .insufficientData) ∧
    get_current_signal (List.replicate 10 default) "macd" "kdj" none none =
      (.HOLD, .errorCalculating) ∧
    get_current_signal ((List.range 26).map fun i =>
        ({ date := i, opn := 1, high := 1, low := 0, close := 1, volume := 0 } : Bar))
      "macd" "macd" none none = (.HOLD, .noSignal) :=
  ⟨(C6_current_signal_resolution [] "macd" "kdj" none none).1 (by decide),
   (C6_current_signal_resolution (List.replicate 10 default) "macd" "kdj" none none).2.1
     (by decide) (by decide),
   ((C6_current_signal_resolution ((List.range 26).map fun i =>
        ({ date := i, opn := 1, high := 1, low := 0, close := 1, volume := 0 } : Bar))
      "macd" "macd" none none).2.2 (by decide)).trans (by decide)⟩

/-- Counting a trade type distributes over appending one trade. -/
theorem countType_append (ty : TradeType) (ts : List Trade) (t : Trade) :
    countType ty (ts ++ [t]) = countType ty ts + countType ty [t] := by
  simp [countType, List.countP_append]

/-- Appending one trade to a log keeps every prefix-count bound, given the
bounds for the old prefixes and for the extended full log. -/
theorem prefixOk_snoc (ts : List Trade) (t : Trade)
    (hpre : ∀ k, countType .SELL (ts.take k) ≤ countType .BUY (ts.take k) ∧
      countType .BUY (ts.take k) ≤ countType .SELL (ts.take k) + 1)
    (hful : countType .SELL (ts ++ [t]) ≤ countType .BUY (ts ++ [t]) ∧
      countType .BUY (ts ++ [t]) ≤ countType .SELL (ts ++ [t]) + 1) :
    ∀ k, countType .SELL ((ts ++ [t]).take k) ≤ countType .BUY ((ts ++ [t]).take k) ∧
      countType .BUY ((ts ++ [t]).take k) ≤ countType .SELL ((ts ++ [t]).take k) + 1 := by
  intro k
  rcases le_or_lt k ts.length with hk | hk
  · rw [List.take_append_eq_append_take, Nat.sub_eq_zero_of_le hk, List.take_zero,
      List.append_nil]
    exact hpre k
  · rw [List.take_of_length_le (by simp; omega)]
    exact hful

/-- Count bookkeeping when a BUY is appended to a balanced log. -/
theorem counts_snoc_buy (ts : List Trade) (T : Trade) (hT : T.ttype = .BUY)
    (h0 : countType .BUY ts = countType .SELL ts) :
    countType .BUY (ts ++ [T]) = countType .SELL (ts ++ [T]) + 1 ∧
    countType .SELL (ts ++ [T]) ≤ countType .BUY (ts ++ [T]) ∧
    countType .BUY (ts ++ [T]) ≤ countType .SELL (ts ++ [T]) + 1 := by
  simp only [countType, List.countP_append, List.countP_cons, List.countP_nil, hT] at h0 ⊢
  simp
  omega

/-- Count bookkeeping when a SELL is appended to a log holding one open
BUY. -/
theorem counts_snoc_sell (ts : List Trade) (T : Trade) (hT : T.ttype = .SELL)
    (h1 : countType .BUY ts = countType .SELL ts + 1) :
    countType .BUY (ts ++ [T]) = countType .SELL (ts ++ [T]) ∧
    countType .SELL (ts ++ [T]) ≤ countType .BUY (ts ++ [T]) ∧
    countType .BUY (ts ++ [T]) ≤ countType .SELL (ts ++ [T]) + 1 := by
  simp only [countType, List.countP_append, List.countP_cons, List.countP_nil, hT] at h1 ⊢
  simp
  omega

/-- The invariant holds before the `_execute_trades` loop. -/
theorem simInv_init (bars : List Bar) : SimInv bars 0 initState := by
  refine ⟨by simp [initState], by simp [initState], by simp [initState],
    by simp [initState], by simp [initState, countType], fun k => ?_⟩
  simp [initState, countType]

/-- Unrolling one iteration of the `_execute_trades` loop. -/
theorem runSteps_succ (bars : List Bar) (bS sS : List Nat) (m : Nat) :
    runSteps bars bS sS (m + 1) = step bars bS sS (runSteps bars bS sS m) m := by
  rw [runSteps, List.range_succ, List.foldl_append]
  rfl

/-- One loop iteration preserves the `_execute_trades` invariant. -/
theorem simInv_step (bars : List Bar) (bS sS : List Nat) (i : Nat) (s : SimState)
    (h : SimInv bars i s) : SimInv bars (i + 1) (step bars bS sS s i) := by
  obtain ⟨hpb, hps, hgood, hsig, hcount, hpre⟩ := h
  unfold step
  by_cases c1 : (decide (bS.getD i 0 = 1) && !s.position_open && !s.pending_buy) = true
  · rw [if_pos c1]
    simp only [Bool.and_eq_true, Bool.not_eq_true', decide_eq_true_eq] at c1
    obtain ⟨⟨-, hpos⟩, -⟩ := c1
    refine ⟨fun _ => ⟨rfl, hpos⟩, fun hps1 => absurd (hps hps1).2 (by simp [hpos]),
      fun t ht j hj => ?_, hsig, hcount, hpre⟩
    obtain ⟨e1, e2, e3⟩ := hgood t ht j hj
    exact ⟨e1, by omega, e3⟩
  · rw [if_neg c1]
    by_cases c2 : (decide (sS.getD i 0 = 1) && s.position_open && !s.pending_sell) = true
    · rw [if_pos c2]
      simp only [Bool.and_eq_true, Bool.not_eq_true', decide_eq_true_eq] at c2
      obtain ⟨⟨-, hpos⟩, -⟩ := c2
      refine ⟨fun hpb1 => absurd (hpb hpb1).2 (by simp [hpos]), fun _ => ⟨rfl, hpos⟩,
        fun t ht j hj => ?_, hsig, hcount, hpre⟩
      obtain ⟨e1, e2, e3⟩ := hgood t ht j hj
      exact ⟨e1, by omega, e3⟩
    · rw [if_neg c2]
      by_cases c3 : (s.pending_buy && decide (0 < i)) = true
      · rw [if_pos c3]
        simp only [Bool.and_eq_true, decide_eq_true_eq] at c3
        obtain ⟨hpbt, hipos⟩ := c3
        obtain ⟨hsigEq, hposF⟩ := hpb hpbt
        have hcount0 : countType .BUY s.trades = countType .SELL s.trades := by
          rw [hposF] at hcount
          simpa using hcount
        have hc := counts_snoc_buy s.trades
          { ttype := .BUY, signalIdx := some s.signalIdx, execIdx := i,
            signalPrice := (bars.getD (i - 1) default).close,
            execPrice := (bars.getD i default).opn,
            shares := (s.balance - s.balance * commission_rate) / (bars.getD i default).opn,
            commission := s.balance * commission_rate, proceeds := none, netProceeds := none,
            profitLoss := none, profitLossPct := none,
            balanceAfter := s.balance - s.balance * commission_rate, holdDays := none }
          rfl hcount0
        refine ⟨fun h1 => absurd h1 (by simp),
          fun hps1 => absurd (hps hps1).2 (by simp [hposF]),
          fun t ht j hj => ?_, fun t ht => ?_, by simpa using hc.1,
          prefixOk_snoc s.trades _ hpre ⟨hc.2.1, hc.2.2⟩⟩
        · rcases List.mem_append.mp ht with hin | hin
          · obtain ⟨e1, e2, e3⟩ := hgood t hin j hj
            exact ⟨e1, by omega, e3⟩
          · rw [List.mem_singleton] at hin
            subst hin
            simp only at hj
            obtain rfl := Option.some_inj.mp hj
            refine ⟨hsigEq.symm, by omega, ?_⟩
            rw [hsigEq]
        · rcases List.mem_append.mp ht with hin | hin
          · exact hsig t hin
          · rw [List.mem_singleton] at hin
            subst hin
            simp
      · rw [if_neg c3]
        by_cases c4 : (s.pending_sell && decide (0 < i)) = true
        · rw [if_pos c4]
          simp only [Bool.and_eq_true, decide_eq_true_eq] at c4
          obtain ⟨hpst, hipos⟩ := c4
          obtain ⟨hsigEq, hposT⟩ := hps hpst
          have hcount1 : countType .BUY s.trades = countType .SELL s.trades + 1 := by
            rw [hposT] at hcount
            simpa using hcount
          have hc := counts_snoc_sell s.trades
            { ttype := .SELL, signalIdx := some s.signalIdx, execIdx := i,
              signalPrice := (bars.getD (i - 1) default).close,
              execPrice := (bars.getD i default).opn, shares := s.shares,
              commission := s.shares * (bars.getD i default).opn * commission_rate,
              proceeds := some (s.shares * (bars.getD i default).opn),
              netProceeds := some (s.shares * (bars.getD i default).opn -
                s.shares * (bars.getD i default).opn * commission_rate),
              profitLoss := some (s.shares * (bars.getD i default).opn -
                s.shares * (bars.getD i default).opn * commission_rate -
                (s.shares * s.buy_price + (s.trades.getLastD default).commission)),
              profitLossPct := some
                (if 0 < s.shares * s.buy_price + (s.trades.getLastD default).commission
                 then (s.shares * (bars.getD i default).opn -
                   s.shares * (bars.getD i default).opn * commission_rate -
                   (s.shares * s.buy_price + (s.trades.getLastD default).commission)) /
                   (s.shares * s.buy_price + (s.trades.getLastD default).commission) * 100
                 else 0),
              balanceAfter := s.shares * (bars.getD i default).opn -
                s.shares * (bars.getD i default).opn * commission_rate,
              holdDays := some ((bars.getD i default).date - (bars.getD s.buyIdx default).date) }
            rfl hcount1
          refine ⟨fun hpb1 => absurd (hpb hpb1).2 (by simp [hposT]),
            fun h1 => absurd h1 (by simp), fun t ht j hj => ?_, fun t ht => ?_,
            by simpa using hc.1, prefixOk_snoc s.trades _ hpre ⟨hc.2.1, hc.2.2⟩⟩
          · rcases List.mem_append.mp ht with hin | hin
            · obtain ⟨e1, e2, e3⟩ := hgood t hin j hj
              exact ⟨e1, by omega, e3⟩
            · rw [List.mem_singleton] at hin
              subst hin
              simp only at hj
              obtain rfl := Option.some_inj.mp hj
              refine ⟨hsigEq.symm, by omega, ?_⟩
              rw [hsigEq]
          · rcases List.mem_append.mp ht with hin | hin
            · exact hsig t hin
            · rw [List.mem_singleton] at hin
              subst hin
              simp
        · rw [if_neg c4]
          simp only [Bool.and_eq_true, decide_eq_true_eq, not_and] at c3 c4
          refine ⟨fun hpb1 => ?_, fun hps1 => ?_, fun t ht j hj => ?_, hsig, hcount, hpre⟩
          · have hi0 : ¬ 0 < i := c3 hpb1
            have := (hpb hpb1).1
            omega
          · have hi0 : ¬ 0 < i := c4 hps1
            have := (hps hps1).1
            omega
          · obtain ⟨e1, e2, e3⟩ := hgood t ht j hj
            exact ⟨e1, by omega, e3⟩

/-- The `_execute_trades` invariant holds after any number of loop
iterations. -/
theorem simInv_runSteps (bars : List Bar) (bS sS : List Nat) :
    ∀ m, SimInv bars m (runSteps bars bS sS m)
  | 0 => simInv_init bars
  | m + 1 => by
    rw [runSteps_succ]
    exact simInv_step bars bS sS m _ (simInv_runSteps bars bS sS m)

/-- C1: every recorded trade executes at the open price of the bar
strictly after its signal bar; the single exception is the forced
end-of-period close (the trade with no signal bar), a SELL executed at the
last bar's close price. -/
theorem C1_execution_prices (bars : List Bar) (bS sS : List Nat) (t : Trade)
    (ht : t ∈ (execute_trades bars bS sS).1) : TradeExecOk bars t := by
  obtain ⟨hpb, hps, hgood, hsig, hcount, hpre⟩ := simInv_runSteps bars bS sS bars.length
  simp only [execute_trades] at ht
  by_cases hpos : (runSteps bars bS sS bars.length).position_open = true
  · rw [if_pos hpos] at ht
    simp only [List.mem_append, List.mem_singleton] at ht
    rcases ht with hin | hin
    · exact ⟨fun j hj => hgood t hin j hj, fun hnone => absurd hnone (hsig t hin)⟩
    · subst hin
      exact ⟨fun j hj => absurd hj (by simp), fun _ => ⟨rfl, rfl, rfl⟩⟩
  · rw [if_neg hpos] at ht
    exact ⟨fun j hj => hgood t ht j hj, fun hnone => absurd hnone (hsig t ht)⟩

theorem C1_witness :
    ((execute_trades [⟨0, 10, 1, 0, 11, 0⟩, ⟨1, 12, 1, 0, 13, 0⟩, ⟨2, 14, 1, 0, 15, 0⟩]
        [1, 0, 0] [0, 0, 0]).1.getD 0 default ∈
      (execute_trades [⟨0, 10, 1, 0, 11, 0⟩, ⟨1, 12, 1, 0, 13, 0⟩, ⟨2, 14, 1, 0, 15, 0⟩]
        [1, 0, 0] [0, 0, 0]).1) ∧
    TradeExecOk [⟨0, 10, 1, 0, 11, 0⟩, ⟨1, 12, 1, 0, 13, 0⟩, ⟨2, 14, 1, 0, 15, 0⟩]
      ((execute_trades [⟨0, 10, 1, 0, 11, 0⟩, ⟨1, 12, 1, 0, 13, 0⟩, ⟨2, 14, 1, 0, 15, 0⟩]
        [1, 0, 0] [0, 0, 0]).1.getD 0 default) :=
  ⟨by decide,
   C1_execution_prices [⟨0, 10, 1, 0, 11, 0⟩, ⟨1, 12, 1, 0, 13, 0⟩, ⟨2, 14, 1, 0, 15, 0⟩]
     [1, 0, 0] [0, 0, 0] _ (by decide)⟩

/-- C2: at every prefix of a produced trade log the number of SELL entries
never exceeds the number of BUY entries, and the BUY count exceeds the
SELL count by at most one. -/
theorem C2_prefix_counts (bars : List Bar) (bS sS : List Nat) (k : Nat) :
    countType .SELL (((execute_trades bars bS sS).1).take k) ≤
      countType .BUY (((execute_trades bars bS sS).1).take k) ∧
    countType .BUY (((execute_trades bars bS sS).1).take k) ≤
      countType .SELL (((execute_trades bars bS sS).1).take k) + 1 := by
  obtain ⟨hpb, hps, hgood, hsig, hcount, hpre⟩ := simInv_runSteps bars bS sS bars.length
  simp only [execute_trades]
  by_cases hpos : (runSteps bars bS sS bars.length).position_open = true
  · rw [if_pos hpos]
    have hcount1 : countType .BUY (runSteps bars bS sS bars.length).trades =
        countType .SELL (runSteps bars bS sS bars.length).trades + 1 := by
      rw [hpos] at hcount
      simpa using hcount
    refine prefixOk_snoc _ _ hpre ⟨?_, ?_⟩ k
    · exact (counts_snoc_sell _ _ rfl hcount1).2.1
    · exact (counts_snoc_sell _ _ rfl hcount1).2.2
  · rw [if_neg hpos]
    exact hpre k

/-- C10: a buy signal on the final bar raised while flat with no pending
buy produces nothing: the loop ends holding only the pending flag, no
position is open, so the returned log and balance are those already
accumulated before the final bar. -/
theorem C10_final_bar_buy_discarded (bars : List Bar) (bS sS : List Nat)
    (h0 : bars ≠ [])
    (hflat : (runSteps bars bS sS (bars.length - 1)).position_open = false)
    (hnopb : (runSteps bars bS sS (bars.length - 1)).pending_buy = false)
    (hbsig : bS.getD (bars.length - 1) 0 = 1) :
    execute_trades bars bS sS =
      ((runSteps bars bS sS (bars.length - 1)).trades,
        (runSteps bars bS sS (bars.length - 1)).balance) := by
  obtain ⟨m, hm⟩ : ∃ m, bars.length = m + 1 := by
    cases bars with
    | nil => exact absurd rfl h0
    | cons a l => exact ⟨l.length, rfl⟩
  have hm1 : bars.length - 1 = m := by omega
  rw [hm1] at hflat hnopb hbsig ⊢
  have hc1 : (decide (bS.getD m 0 = 1) && !(runSteps bars bS sS m).position_open &&
      !(runSteps bars bS sS m).pending_buy) = true := by
    rw [hbsig, hflat, hnopb]
    rfl
  have hstep : runSteps bars bS sS (m + 1) =
      { runSteps bars bS sS m with pending_buy := true, signalIdx := m } := by
    rw [runSteps_succ]
    unfold step
    rw [if_pos hc1]
  simp only [execute_trades, hm, hstep]
  rw [if_neg (by simp [hflat])]

theorem C10_witness :
    execute_trades [⟨0, 10, 1, 0, 11, 0⟩] [1] [0] = ([], 10000) :=
  (C10_final_bar_buy_discarded [⟨0, 10, 1, 0, 11, 0⟩] [1] [0]
      (by decide) (by decide) (by decide) (by decide)).trans (by decide)


theorem ewmAux_length (w : Rat) : ∀ (xs : List Rat) (s wt : Rat),
    (ewmAux w s wt xs).length = xs.length
  | [], _, _ => rfl
  | x :: xs, s, wt => by
    rw [ewmAux]
    simpa using ewmAux_length w xs _ _

theorem ewm_length (span : Nat) (xs : List Rat) : (ewm span xs).length = xs.length :=
  ewmAux_length _ xs 0 0

theorem ewmNumFrom_shift (w : Rat) (x : Rat) (xs : List Rat) (s : Rat) :
    ∀ t, ewmNumFrom w (x :: xs) s (t + 1) = ewmNumFrom w xs (x + w * s) t
  | 0 => by
    simp [ewmNumFrom]
  | t + 1 => by
    rw [ewmNumFrom, ewmNumFrom_shift w x xs s t]
    rfl

theorem ewmDenFrom_shift (w : Rat) (wt : Rat) :
    ∀ t, ewmDenFrom w wt (t + 1) = ewmDenFrom w (1 + w * wt) t
  | 0 => by
    simp [ewmDenFrom]
  | t + 1 => by
    rw [ewmDenFrom, ewmDenFrom_shift w wt t]
    rfl

theorem ewmAux_getD (w : Rat) : ∀ (xs : List Rat) (s wt : Rat) (t : Nat),
    t < xs.length →
    (ewmAux w s wt xs).getD t 0 = ewmNumFrom w xs s t / ewmDenFrom w wt t
  | [], _, _, t, ht => absurd ht (by simp)
  | x :: xs, s, wt, 0, _ => rfl
  | x :: xs, s, wt, t + 1, ht => by
    rw [ewmAux]
    have : (((x + w * s) / (1 + w * wt)) :: ewmAux w (x + w * s) (1 + w * wt) xs).getD
        (t + 1) 0 = (ewmAux w (x + w * s) (1 + w * wt) xs).getD t 0 := rfl
    rw [this, ewmAux_getD w xs (x + w * s) (1 + w * wt) t (by simpa using ht),
      ewmNumFrom_shift, ewmDenFrom_shift]

theorem ewm_getD (span : Nat) (xs : List Rat) (t : Nat) (ht : t < xs.length) :
    (ewm span xs).getD t 0 = emaAdjusted span xs t :=
  ewmAux_getD _ xs 0 0 t ht

theorem zipWith_getD (f : Rat → Rat → Rat) :
    ∀ (as bs : List Rat) (i : Nat), i < as.length → i < bs.length →
    (List.zipWith f as bs).getD i 0 = f (as.getD i 0) (bs.getD i 0)
  | [], _, i, ha, _ => absurd ha (by simp)
  | _ :: _, [], i, _, hb => absurd hb (by simp)
  | a :: as, b :: bs, 0, _, _ => rfl
  | a :: as, b :: bs, i + 1, ha, hb => by
    rw [List.zipWith_cons_cons]
    exact zipWith_getD f as bs i (by simpa using ha) (by simpa using hb)

/-- C3 counterexample: with the default periods 12/26/9 and a concrete
26-bar close series, the MACD line the code returns differs at index 1
from the difference of the recurrence-seeded EMAs the claim prescribes
(pandas `ewm` defaults to `adjust=True`, a weighted average, not that
recurrence). -/
theorem C3_counterexample :
    (calculate_macd ([0, 13] ++ List.replicate 24 0) 12 26 9).map
        (fun r => r.macd_line.getD 1 0) = .ok (7/24) ∧
    emaRecurrence (alphaOfSpan 12) ([0, 13] ++ List.replicate 24 0) 1 -
      emaRecurrence (alphaOfSpan 26) ([0, 13] ++ List.replicate 24 0) 1 = 28/27 ∧
    ((7 : Rat)/24 ≠ 28/27) :=
  ⟨by decide, by decide, by decide⟩

/-- C3 (amended): for at least `slow_period` bars, `calculate_macd`
returns MACD line = EMA_fast − EMA_slow, signal line = EMA_signal of the
MACD line, and histogram = MACD − signal at every index, where each EMA is
the pandas `adjust=True` weighted mean with `alpha = 2/(span+1)`:
`EMA_t = N_t / W_t`, `N_t = x_t + (1-alpha) N_(t-1)`,
`W_t = 1 + (1-alpha) W_(t-1)` (which also starts at its first input,
`EMA_0 = x_0`), not the plain recurrence. -/
theorem C3_amended_macd_series (closes : List Rat)
    (fast_period slow_period signal_period : Nat)
    (h0 : closes ≠ []) (hs : slow_period ≤ closes.length) :
    ∃ r, calculate_macd closes fast_period slow_period signal_period = .ok r ∧
      r.macd_line.length = closes.length ∧
      r.signal_line.length = closes.length ∧
      r.histogram.length = closes.length ∧
      (∀ i, i < closes.length →
        r.macd_line.getD i 0 =
          emaAdjusted fast_period closes i - emaAdjusted slow_period closes i) ∧
      (∀ i, i < closes.length →
        r.signal_line.getD i 0 = emaAdjusted signal_period r.macd_line i) ∧
      (∀ i, i < closes.length →
        r.histogram.getD i 0 = r.macd_line.getD i 0 - r.signal_line.getD i 0) := by
  obtain ⟨r, hr, hml, hsl, hh⟩ := calculate_macd_ok closes _ _ _ h0 hs
  have hmll : r.macd_line.length = closes.length := by
    rw [hml]
    simp [ewm_length]
  have hsll : r.signal_line.length = closes.length := by
    rw [hsl, ewm_length, hmll]
  have hhl : r.histogram.length = closes.length := by
    rw [hh]
    simp [hmll, hsll]
  refine ⟨r, hr, hmll, hsll, hhl, fun i hi => ?_, fun i hi => ?_, fun i hi => ?_⟩
  · rw [hml, zipWith_getD _ _ _ i (by simp [ewm_length]; exact hi)
      (by simp [ewm_length]; exact hi), ewm_getD _ _ _ hi, ewm_getD _ _ _ hi]
  · rw [hsl, ewm_getD _ _ _ (by rw [hmll]; exact hi)]
  · rw [hh, zipWith_getD _ _ _ i (by rw [hmll]; exact hi) (by rw [hsll]; exact hi)]

theorem C3_witness :
    (([0, 13] ++ List.replicate 24 (0 : Rat)) ≠ [] ∧
      26 ≤ ([0, 13] ++ List.replicate 24 (0 : Rat)).length) ∧
    (∃ r, calculate_macd ([0, 13] ++ List.replicate 24 0) 12 26 9 = .ok r ∧
      r.macd_line.length = ([0, 13] ++ List.replicate 24 (0 : Rat)).length ∧
      r.signal_line.length = ([0, 13] ++ List.replicate 24 (0 : Rat)).length ∧
      r.histogram.length = ([0, 13] ++ List.replicate 24 (0 : Rat)).length ∧
      (∀ i, i < ([0, 13] ++ List.replicate 24 (0 : Rat)).length →
        r.macd_line.getD i 0 =
          emaAdjusted 12 ([0, 13] ++ List.replicate 24 0) i -
            emaAdjusted 26 ([0, 13] ++ List.replicate 24 0) i) ∧
      (∀ i, i < ([0, 13] ++ List.replicate 24 (0 : Rat)).length →
        r.signal_line.getD i 0 = emaAdjusted 9 r.macd_line i) ∧
      (∀ i, i < ([0, 13] ++ List.replicate 24 (0 : Rat)).length →
        r.histogram.getD i 0 = r.macd_line.getD i 0 - r.signal_line.getD i 0)) :=
  ⟨⟨by decide, by decide⟩,
   C3_amended_macd_series ([0, 13] ++ List.replicate 24 0) 12 26 9 (by decide) (by decide)⟩


theorem getD_map_range (f : Nat → Rat) (n i : Nat) (d : Rat) (h : i < n) :
    ((List.range n).map f).getD i d = f i := by
  rw [List.getD_eq_getElem?_getD, List.getElem?_map, List.getElem?_range h]
  rfl

theorem take_eq_map_range (xs : List Rat) (n : Nat) (h : n ≤ xs.length) :
    xs.take n = (List.range n).map fun j => xs.getD j 0 := by
  apply List.ext_getElem?
  intro i
  rw [List.getElem?_take, List.getElem?_map]
  by_cases hi : i < n
  · rw [if_pos hi, List.getElem?_range hi]
    have hix : i < xs.length := by omega
    simp [List.getD_eq_getElem?_getD, List.getElem?_eq_getElem hix]
  · rw [if_neg hi, List.getElem?_eq_none (by simpa using not_lt.mp hi)]
    rfl

theorem winSlice_eq (k i : Nat) (xs : List Rat) (h : i < xs.length) :
    winSlice k i xs = (windowIdx k i).map fun j => xs.getD j 0 := by
  rw [winSlice, windowIdx, take_eq_map_range xs (i + 1) (by omega)]
  exact Eq.symm (List.map_drop _ _ _)

theorem rollingMin_getD (k i : Nat) (xs : List Rat) (h : i < xs.length) :
    (rollingMin k xs).getD i 0 = trailMin k i xs := by
  rw [rollingMin, getD_map_range _ _ _ _ h, trailMin, winSlice_eq k i xs h]

theorem rollingMax_getD (k i : Nat) (xs : List Rat) (h : i < xs.length) :
    (rollingMax k xs).getD i 0 = trailMax k i xs := by
  rw [rollingMax, getD_map_range _ _ _ _ h, trailMax, winSlice_eq k i xs h]

theorem rsvAt_eq_spec (bars : List Bar) (k i : Nat) (h : i < bars.length) :
    rsvAt bars k i = specRsv bars k i := by
  rw [rsvAt, specRsv, rollingMin_getD k i _ (by simpa using h),
    rollingMax_getD k i _ (by simpa using h)]

theorem kdjRec_length : ∀ (rs : List Rat) (kp dp : Rat),
    (kdjRec rs kp dp).length = rs.length
  | [], _, _ => rfl
  | r :: rs, kp, dp => by
    rw [kdjRec]
    simpa using kdjRec_length rs _ _

theorem kdjRec_rec : ∀ (rs : List Rat) (kp dp : Rat) (t : Nat), t < rs.length →
    ((((kp, dp) :: kdjRec rs kp dp).map (·.1)).getD (t + 1) 0 =
      2/3 * (((kp, dp) :: kdjRec rs kp dp).map (·.1)).getD t 0 + 1/3 * rs.getD t 0) ∧
    ((((kp, dp) :: kdjRec rs kp dp).map (·.2)).getD (t + 1) 0 =
      2/3 * (((kp, dp) :: kdjRec rs kp dp).map (·.2)).getD t 0 +
        1/3 * (((kp, dp) :: kdjRec rs kp dp).map (·.1)).getD (t + 1) 0)
  | [], _, _, t, ht => absurd ht (by simp)
  | r :: rs, kp, dp, 0, _ => ⟨rfl, rfl⟩
  | r :: rs, kp, dp, t + 1, ht =>
    kdjRec_rec rs (2/3 * kp + 1/3 * r) (2/3 * dp + 1/3 * (2/3 * kp + 1/3 * r)) t
      (by simpa using ht)


/-- C4: for at least `k_period` bars, `calculate_kdj` returns K = D = 50
at row 0 (the first row where RSV is defined, since the rolling windows
permit partial samples), then `K_t = 2/3 K_(t-1) + 1/3 RSV_t` and
`D_t = 2/3 D_(t-1) + 1/3 K_t`, with
`RSV_t = (close_t - min low) / (max high - min low) * 100` over the
trailing `k`-window (denominator replaced by 1 when zero) and
`J_i = 3 K_i - 2 D_i` at every row. -/
theorem C4_kdj_series (bars : List Bar) (k_period d_period j_period : Nat)
    (hk : 0 < k_period) (hlen : k_period ≤ bars.length) :
    ∃ r, calculate_kdj bars k_period d_period j_period = .ok r ∧
      r.k.length = bars.length ∧ r.d.length = bars.length ∧
      r.j.length = bars.length ∧
      r.k.getD 0 0 = 50 ∧ r.d.getD 0 0 = 50 ∧
      (∀ t, t + 1 < bars.length →
        r.k.getD (t + 1) 0 =
          2/3 * r.k.getD t 0 + 1/3 * specRsv bars k_period (t + 1)) ∧
      (∀ t, t + 1 < bars.length →
        r.d.getD (t + 1) 0 = 2/3 * r.d.getD t 0 + 1/3 * r.k.getD (t + 1) 0) ∧
      (∀ i, i < bars.length → r.j.getD i 0 = 3 * r.k.getD i 0 - 2 * r.d.getD i 0) := by
  have h0 : bars ≠ [] := by
    intro he
    rw [he] at hlen
    simp at hlen
    omega
  obtain ⟨m, hm⟩ : ∃ m, bars.length = m + 1 := by
    cases bars with
    | nil => exact absurd rfl h0
    | cons a l => exact ⟨l.length, rfl⟩
  have hc : (bars.isEmpty || decide (bars.length < k_period)) = false := by
    simp [h0]
    omega
  have heq : calculate_kdj bars k_period d_period j_period = .ok
      ⟨50 :: (kdjRec ((List.range m).map (rsvAt bars k_period ∘ Nat.succ)) 50 50).map (·.1),
       50 :: (kdjRec ((List.range m).map (rsvAt bars k_period ∘ Nat.succ)) 50 50).map (·.2),
       (50 :: (kdjRec ((List.range m).map (rsvAt bars k_period ∘ Nat.succ)) 50 50).map (·.1)).zipWith
         (fun a b => 3 * a - 2 * b)
         (50 :: (kdjRec ((List.range m).map (rsvAt bars k_period ∘ Nat.succ)) 50 50).map (·.2))⟩ := by
    rw [calculate_kdj, if_neg (by simp [hc]), hm, List.range_succ_eq_map, List.map_cons,
      List.map_map]
  set rtail := (List.range m).map (rsvAt bars k_period ∘ Nat.succ) with hrtail
  have hrtl : rtail.length = m := by simp [hrtail]
  have hkl : (50 :: (kdjRec rtail 50 50).map (·.1) : List Rat).length = bars.length := by
    simp [kdjRec_length, hrtl, hm]
  have hdl : (50 :: (kdjRec rtail 50 50).map (·.2) : List Rat).length = bars.length := by
    simp [kdjRec_length, hrtl, hm]
  refine ⟨_, heq, hkl, hdl, ?_, rfl, rfl, fun t ht => ?_, fun t ht => ?_, fun i hi => ?_⟩
  · simp only [List.length_zipWith, hkl, hdl, hm]
    omega
  · have htm : t < rtail.length := by omega
    have hrec := (kdjRec_rec rtail 50 50 t htm).1
    have hrsv : rtail.getD t 0 = rsvAt bars k_period (t + 1) := by
      rw [hrtail]
      exact getD_map_range _ m t 0 (by omega)
    simp only [List.map_cons] at hrec
    rw [hrec, hrsv, rsvAt_eq_spec bars k_period (t + 1) (by omega)]
  · have htm : t < rtail.length := by omega
    have hrec := (kdjRec_rec rtail 50 50 t htm).2
    simp only [List.map_cons] at hrec
    rw [hrec]
  · apply zipWith_getD
    · rw [hkl]
      exact hi
    · rw [hdl]
      exact hi

theorem C4_witness :
    (0 < 2 ∧ 2 ≤ ([⟨0, 1, 10, 2, 6, 0⟩, ⟨1, 1, 12, 4, 8, 0⟩, ⟨2, 1, 12, 4, 10, 0⟩] : List Bar).length) ∧
    (∃ r, calculate_kdj [⟨0, 1, 10, 2, 6, 0⟩, ⟨1, 1, 12, 4, 8, 0⟩, ⟨2, 1, 12, 4, 10, 0⟩] 2 3 3 = .ok r ∧
      r.k.length = 3 ∧ r.d.length = 3 ∧ r.j.length = 3 ∧
      r.k.getD 0 0 = 50 ∧ r.d.getD 0 0 = 50 ∧
      (∀ t, t + 1 < 3 →
        r.k.getD (t + 1) 0 = 2/3 * r.k.getD t 0 +
          1/3 * specRsv [⟨0, 1, 10, 2, 6, 0⟩, ⟨1, 1, 12, 4, 8, 0⟩, ⟨2, 1, 12, 4, 10, 0⟩] 2 (t + 1)) ∧
      (∀ t, t + 1 < 3 →
        r.d.getD (t + 1) 0 = 2/3 * r.d.getD t 0 + 1/3 * r.k.getD (t + 1) 0) ∧
      (∀ i, i < 3 → r.j.getD i 0 = 3 * r.k.getD i 0 - 2 * r.d.getD i 0)) :=
  ⟨⟨by decide, by decide⟩,
   C4_kdj_series [⟨0, 1, 10, 2, 6, 0⟩, ⟨1, 1, 12, 4, 8, 0⟩, ⟨2, 1, 12, 4, 10, 0⟩] 2 3 3
     (by decide) (by decide)⟩


theorem ruleMatches_iff (r : ScanResult) (rule : ExcludeRule) :
    ruleMatches r rule = true ↔ RuleApplies r rule := by
  rw [ruleMatches]
  rcases h : pyOr (dictGet r.trading_summary rule.field) (dictGet r.statistics rule.field)
    with _ | v
  · simp [RuleApplies, h]
  · rw [RuleApplies]
    simp only [h, Option.some_inj]
    rw [evaluate_condition]
    constructor
    · intro hc
      by_cases h1 : rule.op = "<"
      · rw [if_pos h1] at hc
        exact ⟨v, rfl, Or.inl ⟨h1, by simpa using hc⟩⟩
      · rw [if_neg h1] at hc
        by_cases h2 : rule.op = ">"
        · rw [if_pos h2] at hc
          exact ⟨v, rfl, Or.inr (Or.inl ⟨h2, by simpa using hc⟩)⟩
        · rw [if_neg h2] at hc
          by_cases h3 : rule.op = "<="
          · rw [if_pos h3] at hc
            exact ⟨v, rfl, Or.inr (Or.inr (Or.inl ⟨h3, by simpa using hc⟩))⟩
          · rw [if_neg h3] at hc
            by_cases h4 : rule.op = ">="
            · rw [if_pos h4] at hc
              exact ⟨v, rfl, Or.inr (Or.inr (Or.inr (Or.inl ⟨h4, by simpa using hc⟩)))⟩
            · rw [if_neg h4] at hc
              by_cases h5 : rule.op = "=="
              · rw [if_pos h5] at hc
                exact ⟨v, rfl, Or.inr (Or.inr (Or.inr (Or.inr (Or.inl
                  ⟨h5, by simpa using hc⟩))))⟩
              · rw [if_neg h5] at hc
                by_cases h6 : rule.op = "!="
                · rw [if_pos h6] at hc
                  exact ⟨v, rfl, Or.inr (Or.inr (Or.inr (Or.inr (Or.inr
                    ⟨h6, by simpa using hc⟩))))⟩
                · rw [if_neg h6] at hc
                  exact absurd hc (by simp)
    · rintro ⟨w, hw, hor⟩
      obtain rfl : v = w := hw
      rcases hor with ⟨ho, hv⟩ | ⟨ho, hv⟩ | ⟨ho, hv⟩ | ⟨ho, hv⟩ | ⟨ho, hv⟩ | ⟨ho, hv⟩ <;>
        rw [ho] <;> simp [hv]


/-- C7 counterexample: a result whose summary `return_percentage` is 0
(with no statistics entry) is below the threshold under the claimed
summary-then-statistics lookup, yet the rule `return_percentage < 10`
does NOT drop it: Python's `summary.get(f) or stats.get(f)` treats the
0 as falsy and falls through to `None`, so the rule is skipped. -/
theorem C7_counterexample :
    apply_exclude_rules [⟨[("return_percentage", 0)], []⟩]
        [⟨"return_percentage", "<", 10⟩] =
      [⟨[("return_percentage", 0)], []⟩] ∧
    specFieldGet ⟨[("return_percentage", 0)], []⟩ "return_percentage" = some 0 ∧
    ((0 : Rat) < 10) :=
  ⟨by decide, by decide, by decide⟩

/-- C7 (amended): filtering drops a result iff at least one rule matches
it, where the rule's field value is the summary value when that is present
and non-zero, else the statistics value; a rule whose field so resolves to
nothing (absent from both records, or zero in the summary and absent from
statistics) has no effect and raises no error.  The rule
`return_percentage < 10` removes exactly the results whose resolved
`return_percentage` is below 10. -/
theorem C7_amended_exclude_rules (results : List ScanResult)
    (rules : List ExcludeRule) :
    (apply_exclude_rules results rules =
      results.filter fun r => !(rules.any (ruleMatches r))) ∧
    (∀ r, r ∈ apply_exclude_rules results rules ↔
      r ∈ results ∧ ¬ ∃ rule ∈ rules, RuleApplies r rule) ∧
    ((∀ r, r ∈ results → ∀ rule, rule ∈ rules →
        pyOr (dictGet r.trading_summary rule.field) (dictGet r.statistics rule.field) = none) →
      apply_exclude_rules results rules = results) ∧
    (∀ r, r ∈ apply_exclude_rules results [⟨"return_percentage", "<", 10⟩] ↔
      r ∈ results ∧ ¬ ∃ v, pyOr (dictGet r.trading_summary "return_percentage")
        (dictGet r.statistics "return_percentage") = some v ∧ v < 10) := by
  have hfilter : ∀ (rs : List ScanResult) (rl : List ExcludeRule),
      apply_exclude_rules rs rl = rs.filter fun r => !(rl.any (ruleMatches r)) := by
    intro rs rl
    induction rs with
    | nil => rfl
    | cons a l ih =>
      rw [apply_exclude_rules, List.filter_cons]
      by_cases ha : rl.any (ruleMatches a) = true
      · rw [if_pos ha, if_neg (by simp [ha]), ih]
      · rw [if_neg ha,
          if_pos (by simp only [Bool.not_eq_true', List.any_eq_false]; simpa using ha), ih]
  have hmem : ∀ (rs : List ScanResult) (rl : List ExcludeRule) (r : ScanResult),
      r ∈ apply_exclude_rules rs rl ↔ r ∈ rs ∧ ¬ ∃ rule ∈ rl, RuleApplies r rule := by
    intro rs rl r
    rw [hfilter, List.mem_filter]
    simp only [Bool.not_eq_true', List.any_eq_false]
    constructor
    · rintro ⟨hin, hall⟩
      refine ⟨hin, ?_⟩
      rintro ⟨rule, hrule, happ⟩
      have := hall rule hrule
      rw [(ruleMatches_iff r rule).mpr happ] at this
      exact this rfl
    · rintro ⟨hin, hnone⟩
      refine ⟨hin, fun rule hrule => ?_⟩
      by_cases hb : ruleMatches r rule = true
      · exact absurd ⟨rule, hrule, (ruleMatches_iff r rule).mp hb⟩ hnone
      · simpa using hb
  refine ⟨hfilter results rules, hmem results rules, fun hnone => ?_, fun r => ?_⟩
  · rw [hfilter]
    apply List.filter_eq_self.mpr
    intro r hr
    simp only [Bool.not_eq_true', List.any_eq_false]
    intro rule hrule
    rw [ruleMatches, hnone r hr rule hrule]
    simp
  · rw [hmem results [⟨"return_percentage", "<", 10⟩] r]
    constructor
    · rintro ⟨hin, hno⟩
      refine ⟨hin, ?_⟩
      rintro ⟨v, hv, hlt⟩
      exact hno ⟨⟨"return_percentage", "<", 10⟩, by simp,
        ⟨v, hv, Or.inl ⟨rfl, hlt⟩⟩⟩
    · rintro ⟨hin, hno⟩
      refine ⟨hin, ?_⟩
      rintro ⟨rule, hrule, happ⟩
      rw [List.mem_singleton] at hrule
      subst hrule
      obtain ⟨v, hv, hor⟩ := happ
      rcases hor with ⟨-, hlt⟩ | ⟨ho, -⟩ | ⟨ho, -⟩ | ⟨ho, -⟩ | ⟨ho, -⟩ | ⟨ho, -⟩
      · exact hno ⟨v, hv, hlt⟩
      all_goals exact absurd ho (by decide)

theorem C7_witness :
    ((⟨[("return_percentage", 5)], []⟩ : ScanResult) ∈
        apply_exclude_rules [⟨[("return_percentage", 5)], []⟩]
          [⟨"return_percentage", "<", 10⟩] ↔
      (⟨[("return_percentage", 5)], []⟩ : ScanResult) ∈
          ([⟨[("return_percentage", 5)], []⟩] : List ScanResult) ∧
        ¬ ∃ v, pyOr (dictGet ([("return_percentage", 5)] : List (String × Rat))
            "return_percentage") (dictGet ([] : List (String × Rat)) "return_percentage") =
            some v ∧ v < 10) :=
  (C7_amended_exclude_rules [⟨[("return_percentage", 5)], []⟩] []).2.2.2
    ⟨[("return_percentage", 5)], []⟩


theorem keyLe_cons_iff (x y : Rat) (xs ys : List Rat) :
    keyLe (x :: xs) (y :: ys) = true ↔ x < y ∨ (x = y ∧ keyLe xs ys = true) := by
  rw [keyLe]
  rcases lt_trichotomy x y with h | h | h
  · simp [if_pos h, h]
  · rw [if_neg (by simp [h]), if_neg (by simp [h])]
    simp [h]
  · rw [if_neg (not_lt.mpr (le_of_lt h)), if_pos h]
    constructor
    · intro hh
      exact absurd hh (by simp)
    · rintro (hlt | ⟨heq, -⟩)
      · exact absurd hlt (not_lt.mpr (le_of_lt h))
      · exact absurd heq (ne_of_gt h)

theorem keyLe_total : ∀ xs ys : List Rat, keyLe xs ys = false → keyLe ys xs = true
  | [], ys, h => absurd h (by simp [keyLe])
  | x :: xs, [], _ => rfl
  | x :: xs, y :: ys, h => by
    have hnot : ¬ (x < y ∨ (x = y ∧ keyLe xs ys = true)) := by
      rw [← keyLe_cons_iff x y xs ys]
      simp [h]
    push_neg at hnot
    obtain ⟨hxy, heq⟩ := hnot
    rcases lt_trichotomy y x with h1 | h1 | h1
    · exact (keyLe_cons_iff y x ys xs).mpr (Or.inl h1)
    · refine (keyLe_cons_iff y x ys xs).mpr (Or.inr ⟨h1, ?_⟩)
      have := heq h1.symm
      exact keyLe_total xs ys (by simpa using this)
    · exact absurd h1 (not_lt.mpr hxy)

theorem keyLe_trans : ∀ xs ys zs : List Rat,
    keyLe xs ys = true → keyLe ys zs = true → keyLe xs zs = true
  | [], _, _, _, _ => rfl
  | x :: xs, [], zs, h, _ => absurd h (by simp [keyLe])
  | x :: xs, y :: ys, [], _, h => absurd h (by simp [keyLe])
  | x :: xs, y :: ys, z :: zs, h1, h2 => by
    rcases (keyLe_cons_iff x y xs ys).mp h1 with ha | ⟨ha, ha2⟩ <;>
      rcases (keyLe_cons_iff y z ys zs).mp h2 with hb | ⟨hb, hb2⟩
    · exact (keyLe_cons_iff x z xs zs).mpr (Or.inl (lt_trans ha hb))
    · exact (keyLe_cons_iff x z xs zs).mpr (Or.inl (hb ▸ ha))
    · exact (keyLe_cons_iff x z xs zs).mpr (Or.inl (ha ▸ hb))
    · exact (keyLe_cons_iff x z xs zs).mpr
        (Or.inr ⟨ha.trans hb, keyLe_trans xs ys zs ha2 hb2⟩)

theorem insertSorted_perm {α : Type} (le : α → α → Bool) (a : α) :
    ∀ l : List α, (insertSorted le a l).Perm (a :: l)
  | [] => List.Perm.refl _
  | b :: l => by
    rw [insertSorted]
    by_cases h : le a b = true
    · rw [if_pos h]
    · rw [if_neg h]
      exact ((insertSorted_perm le a l).cons b).trans (List.Perm.swap a b l)

theorem pySorted_perm {α : Type} (le : α → α → Bool) :
    ∀ l : List α, (pySorted le l).Perm l
  | [] => List.Perm.refl _
  | x :: xs => by
    rw [pySorted]
    exact (insertSorted_perm le x (pySorted le xs)).trans ((pySorted_perm le xs).cons x)

theorem mem_insertSorted {α : Type} (le : α → α → Bool) (a : α) (l : List α) (x : α) :
    x ∈ insertSorted le a l ↔ x = a ∨ x ∈ l := by
  rw [(insertSorted_perm le a l).mem_iff]
  simp

theorem insertSorted_pairwise {α : Type} (le : α → α → Bool)
    (htot : ∀ a b, le a b = false → le b a = true)
    (htrans : ∀ a b c, le a b = true → le b c = true → le a c = true)
    (a : α) : ∀ l : List α, l.Pairwise (fun x y => le x y = true) →
      (insertSorted le a l).Pairwise (fun x y => le x y = true)
  | [], _ => by simp [insertSorted]
  | b :: l, hl => by
    rw [insertSorted]
    obtain ⟨hbl, hl2⟩ := List.pairwise_cons.mp hl
    by_cases h : le a b = true
    · rw [if_pos h]
    
      refine List.Pairwise.cons ?_ hl
      intro x hx
      rcases List.mem_cons.mp hx with rfl | hx2
      · exact h
      · exact htrans a b x h (hbl x hx2)
    · rw [if_neg h]
      refine List.Pairwise.cons ?_ (insertSorted_pairwise le htot htrans a l hl2)
      intro x hx
      rcases (mem_insertSorted le a l x).mp hx with rfl | hx2
      · exact htot _ b (by simpa using h)
      · exact hbl x hx2

theorem pySorted_pairwise {α : Type} (le : α → α → Bool)
    (htot : ∀ a b, le a b = false → le b a = true)
    (htrans : ∀ a b c, le a b = true → le b c = true → le a c = true) :
    ∀ l : List α, (pySorted le l).Pairwise (fun x y => le x y = true)
  | [] => by simp [pySorted]
  | x :: xs => by
    rw [pySorted]
    exact insertSorted_pairwise le htot htrans x (pySorted le xs)
      (pySorted_pairwise le htot htrans xs)


theorem apply_sorting_perm (results : List ScanResult) (sort_rules : List SortRule) :
    (apply_sorting results sort_rules).Perm results := by
  rw [apply_sorting]
  by_cases h : results.isEmpty
  · rw [if_pos h]
  · rw [if_neg h]
    exact pySorted_perm _ results

theorem apply_sorting_pairwise (results : List ScanResult) (sort_rules : List SortRule) :
    List.Pairwise (fun a b =>
      keyLe (sortKey a (if sort_rules.isEmpty then defaultSortRules else sort_rules))
        (sortKey b (if sort_rules.isEmpty then defaultSortRules else sort_rules)) = true)
      (apply_sorting results sort_rules) := by
  rw [apply_sorting]
  by_cases h : results.isEmpty
  · rw [if_pos h]
    rw [List.isEmpty_iff.mp h]
    exact List.Pairwise.nil
  · rw [if_neg h]
    exact pySorted_pairwise
      (fun a b => keyLe
        (sortKey a (if sort_rules.isEmpty then defaultSortRules else sort_rules))
        (sortKey b (if sort_rules.isEmpty then defaultSortRules else sort_rules)))
      (fun a b hab => keyLe_total _ _ hab)
      (fun a b c hab hbc => keyLe_trans _ _ _ hab hbc)
      results

theorem keyLe_desc2_iff (a b : ScanResult) :
    keyLe (sortKey a [⟨"success_rate", "desc"⟩, ⟨"return_percentage", "desc"⟩])
      (sortKey b [⟨"success_rate", "desc"⟩, ⟨"return_percentage", "desc"⟩]) = true ↔
    (sortFieldValue b "success_rate" < sortFieldValue a "success_rate" ∨
      (sortFieldValue a "success_rate" = sortFieldValue b "success_rate" ∧
        sortFieldValue b "return_percentage" ≤ sortFieldValue a "return_percentage")) := by
  have hkey : ∀ c : ScanResult,
      sortKey c [⟨"success_rate", "desc"⟩, ⟨"return_percentage", "desc"⟩] =
        [-(sortFieldValue c "success_rate"), -(sortFieldValue c "return_percentage")] := by
    intro c
    simp [sortKey, sortValue]
  rw [hkey, hkey, keyLe_cons_iff, keyLe_cons_iff]
  constructor
  · rintro (h1 | ⟨h1, h2 | ⟨h2, -⟩⟩)
    · exact Or.inl (by linarith)
    · exact Or.inr ⟨by linarith, by linarith⟩
    · exact Or.inr ⟨by linarith, by linarith⟩
  · rintro (h1 | ⟨h1, h2⟩)
    · exact Or.inl (by linarith)
    · rcases lt_or_eq_of_le h2 with h2' | h2'
      · exact Or.inr ⟨by linarith, Or.inl (by linarith)⟩
      · exact Or.inr ⟨by linarith, Or.inr ⟨by linarith, rfl⟩⟩

/-- C8 counterexample: under the claimed summary-then-statistics lookup
(missing defaults to 0), result B (summary success_rate 50) should precede
result A (summary success_rate 0) under descending success_rate; the code
instead reads A's statistics success_rate 100 — `summary.get(f) or
stats.get(f) or 0` skips the falsy summary 0 — and returns A first. -/
theorem C8_counterexample :
    apply_sorting
        [⟨[("success_rate", 0)], [("success_rate", 100)]⟩, ⟨[("success_rate", 50)], []⟩]
        [⟨"success_rate", "desc"⟩, ⟨"return_percentage", "desc"⟩] =
      [⟨[("success_rate", 0)], [("success_rate", 100)]⟩, ⟨[("success_rate", 50)], []⟩] ∧
    specSortValue ⟨[("success_rate", 0)], [("success_rate", 100)]⟩ "success_rate" = 0 ∧
    specSortValue ⟨[("success_rate", 50)], []⟩ "success_rate" = 50 ∧
    ¬ List.Pairwise (fun x y =>
        specSortValue y "success_rate" < specSortValue x "success_rate" ∨
        (specSortValue x "success_rate" = specSortValue y "success_rate" ∧
          specSortValue y "return_percentage" ≤ specSortValue x "return_percentage"))
      (apply_sorting
        [⟨[("success_rate", 0)], [("success_rate", 100)]⟩, ⟨[("success_rate", 50)], []⟩]
        [⟨"success_rate", "desc"⟩, ⟨"return_percentage", "desc"⟩]) :=
  ⟨by decide, by decide, by decide, by decide⟩

/-- C8 (amended): `_apply_sorting` returns a permutation of its input
ordered by the first rule with later rules breaking exact ties, where each
field's sort value is the first non-zero value among the summary then the
statistics record, defaulting to 0 when both are zero or absent; when no
rules are given it sorts by `return_percentage` descending; the rules
`[success_rate desc, return_percentage desc]` order primarily by
decreasing effective success_rate, breaking exact ties by decreasing
effective return_percentage. -/
theorem C8_amended_sorting (results : List ScanResult) (sort_rules : List SortRule) :
    (apply_sorting results sort_rules).Perm results ∧
    List.Pairwise (fun a b =>
      keyLe (sortKey a (if sort_rules.isEmpty then defaultSortRules else sort_rules))
        (sortKey b (if sort_rules.isEmpty then defaultSortRules else sort_rules)) = true)
      (apply_sorting results sort_rules) ∧
    apply_sorting results [] = apply_sorting results defaultSortRules ∧
    List.Pairwise (fun a b =>
      sortFieldValue b "success_rate" < sortFieldValue a "success_rate" ∨
      (sortFieldValue a "success_rate" = sortFieldValue b "success_rate" ∧
        sortFieldValue b "return_percentage" ≤ sortFieldValue a "return_percentage"))
      (apply_sorting results [⟨"success_rate", "desc"⟩, ⟨"return_percentage", "desc"⟩]) := by
  refine ⟨apply_sorting_perm results sort_rules, apply_sorting_pairwise results sort_rules,
    by simp [apply_sorting, defaultSortRules], ?_⟩
  have hp := apply_sorting_pairwise results
    [⟨"success_rate", "desc"⟩, ⟨"return_percentage", "desc"⟩]
  simp only [List.isEmpty_cons, if_neg] at hp
  exact hp.imp fun hab => (keyLe_desc2_iff _ _).mp hab

end StockV2
